import Mathlib

/-
Verification of the warehouse/self-storage manager (src/app.py).

The embedding models the billing core and the record stores of the
application.  Dates follow Python's `datetime.date`: a proleptic Gregorian
calendar day identified by (year, month, day), ordered and subtracted via
its ordinal number (days since 0001-01-01, inclusive), exactly as CPython's
`_ymd2ord`.  Monetary values (SQLite REAL) are modelled as exact rationals;
all arithmetic performed by the program on them (multiply, add) is modelled
by the corresponding exact operation.
-/

namespace WarehouseApp

/-- Leap-year test, as in Python's `calendar.isleap`. -/
def isLeap (y : Nat) : Bool :=
  (y % 4 == 0 && y % 100 != 0) || (y % 400 == 0)

/-- Number of days of month `m` of year `y`, as `calendar.monthrange(y, m)[1]`.
(Only meaningful for `1 ≤ m ≤ 12`; the program validates the month before
calling it.) -/
def daysInMonth (y m : Nat) : Nat :=
  if m = 2 then (if isLeap y then 29 else 28)
  else if m = 4 ∨ m = 6 ∨ m = 9 ∨ m = 11 then 30
  else 31

/-- Days in the months of year `y` strictly before month `m`. -/
def daysBeforeMonth (y : Nat) : Nat → Nat
  | 0 => 0
  | 1 => 0
  | n + 2 => daysBeforeMonth y (n + 1) + daysInMonth y (n + 1)

/-- Days in the years strictly before year `y` (proleptic Gregorian). -/
def daysBeforeYear (y : Nat) : Nat :=
  365 * (y - 1) + (y - 1) / 4 + (y - 1) / 400 - (y - 1) / 100

/-- A calendar date, as Python's `datetime.date`. -/
structure Date where
  year : Nat
  month : Nat
  day : Nat
deriving DecidableEq, Repr

/-- The proleptic-Gregorian ordinal of a date (CPython's `_ymd2ord`):
0001-01-01 has ordinal 1. -/
def toOrdinal (d : Date) : Nat :=
  daysBeforeYear d.year + daysBeforeMonth d.year d.month + d.day

/-- Python's `<=` on dates (via ordinals; on valid dates this is the
lexicographic (year, month, day) order Python uses). -/
def dateLe (a b : Date) : Bool :=
  decide (toOrdinal a ≤ toOrdinal b)

/-- Python's `max(a, b)` on two dates: returns `b` exactly when `b > a`. -/
def dateMax (a b : Date) : Date :=
  if toOrdinal a < toOrdinal b then b else a

/-- Python's `min(a, b)` on two dates: returns `b` exactly when `b < a`. -/
def dateMin (a b : Date) : Date :=
  if toOrdinal b < toOrdinal a then b else a

/-- Python's `(a - b).days` on two dates: difference of ordinals. -/
def dateSub (a b : Date) : Int :=
  (toOrdinal a : Int) - (toOrdinal b : Int)

/-- `date(year, month, 1)` — the `first_day` of `compute_billing`. -/
def firstDay (year month : Nat) : Date := ⟨year, month, 1⟩

/-- `date(year, month, monthrange(year, month)[1])` — the `last_day` of
`compute_billing`. -/
def lastDay (year month : Nat) : Date := ⟨year, month, daysInMonth year month⟩

/-- One row of the occupancy query of `compute_billing`: the occupancy
joined with its unit's and tenant's names. -/
structure OccRecord where
  unit_name : String
  tenant_id : Nat
  tenant_name : String
  start_date : Date
  end_date : Option Date
  daily_rate : Rat
deriving DecidableEq, Repr

/-- The SQL WHERE-clause of the occupancy query of `compute_billing`
(three OR'd range conditions). -/
def sqlOverlap (first last : Date) (o : OccRecord) : Bool :=
  (dateLe o.start_date last &&
    (match o.end_date with
     | none => true
     | some e => dateLe first e)) ||
  (dateLe first o.start_date && dateLe o.start_date last) ||
  (match o.end_date with
   | none => false
   | some e => dateLe first e && dateLe e last)

/-- `occ_end if occ_end else last_day`: an open-ended occupancy is treated
as running through the end of the month. -/
def effectiveEnd (o : OccRecord) (last : Date) : Date :=
  match o.end_date with
  | none => last
  | some e => e

/-- One line item of a tenant's billing entry, as built in the loop of
`compute_billing`: `days = (end - start).days + 1`, `charge = days * rate`. -/
structure LineItem where
  unit_name : String
  days : Int
  daily_rate : Rat
  charge : Rat
deriving DecidableEq, Repr

/-- The line item `compute_billing` produces for one occupancy record. -/
def recordItem (first last : Date) (o : OccRecord) : LineItem :=
  let s := dateMax o.start_date first
  let e := dateMin (effectiveEnd o last) last
  let days := dateSub e s + 1
  ⟨o.unit_name, days, o.daily_rate, (days : Rat) * o.daily_rate⟩

/-- One tenant's entry in the `billing` dictionary of `compute_billing`. -/
structure TenantBill where
  tenant_name : String
  items : List LineItem
  total : Rat
deriving DecidableEq, Repr

/-- `if tenant_id not in billing: billing[tenant_id] = {tenant_name, [], 0.0}`.
The dictionary is modelled as an association list in insertion order. -/
def ensureTenant (billing : List (Nat × TenantBill)) (tid : Nat)
    (tname : String) : List (Nat × TenantBill) :=
  if billing.any (fun e => e.1 == tid) then billing
  else billing ++ [(tid, ⟨tname, [], 0⟩)]

/-- `billing[tenant_id]["items"].append(item); billing[tenant_id]["total"] += charge`. -/
def appendItem (billing : List (Nat × TenantBill)) (tid : Nat)
    (it : LineItem) : List (Nat × TenantBill) :=
  billing.map (fun e =>
    if e.1 == tid then
      (e.1, ⟨e.2.tenant_name, e.2.items ++ [it], e.2.total + it.charge⟩)
    else e)

/-- One iteration of the record loop of `compute_billing`. -/
def billStep (first last : Date) (billing : List (Nat × TenantBill))
    (r : OccRecord) : List (Nat × TenantBill) :=
  appendItem (ensureTenant billing r.tenant_id r.tenant_name) r.tenant_id
    (recordItem first last r)

/-- The body of `compute_billing` after the period dates are formed: the SQL
filter selects the candidate records (in occupancy-table order), and the loop
folds them into the per-tenant billing dictionary. -/
def compute_billing_records (year month : Nat) (occs : List OccRecord) :
    List (Nat × TenantBill) :=
  (occs.filter (sqlOverlap (firstDay year month) (lastDay year month))).foldl
    (billStep (firstDay year month) (lastDay year month)) []

/-- Error raised while computing billing.  `unknownPeriod` models the
`ValueError` raised by `date(year, month, 1)` (and `monthrange`) when the
(year, month) pair is not a valid period. -/
inductive BillingError
  | unknownPeriod
deriving DecidableEq, Repr

/-- Validity of the (year, month) pair as checked by Python's `date`
constructor: `MINYEAR ≤ year ≤ MAXYEAR` and `1 ≤ month ≤ 12`. -/
def validPeriod (year month : Nat) : Bool :=
  decide (1 ≤ year ∧ year ≤ 9999 ∧ 1 ≤ month ∧ month ≤ 12)

/-- `compute_billing(year, month)` over a given occupancy store: constructing
`first_day` validates the period before the store is queried; on success the
billing dictionary is computed. -/
def compute_billing (year month : Nat) (occs : List OccRecord) :
    Except BillingError (List (Nat × TenantBill)) :=
  if validPeriod year month then
    .ok (compute_billing_records year month occs)
  else
    .error .unknownPeriod

/-- A row of the `units` table. -/
structure StorageUnit where
  id : Nat
  name : String
  daily_rate : Rat
deriving DecidableEq, Repr

/-- A row of the `tenants` table (contact fields are irrelevant here). -/
structure Tenant where
  id : Nat
  name : String
deriving DecidableEq, Repr

/-- A row of the `occupancies` table. -/
structure Occupancy where
  id : Nat
  unit_id : Nat
  tenant_id : Nat
  start_date : Date
  end_date : Option Date
  daily_rate : Rat
deriving DecidableEq, Repr

/-- The units/tenants/occupancies portion of the database.  `nextOccId` is
the autoincrement counter of the occupancies table. -/
structure AppState where
  units : List StorageUnit
  tenants : List Tenant
  occupancies : List Occupancy
  nextOccId : Nat
deriving DecidableEq, Repr

/-- `update_unit_rate(unit_id, daily_rate)`:
`UPDATE units SET daily_rate = ? WHERE id = ?`. -/
def update_unit_rate (s : AppState) (unit_id : Nat) (daily_rate : Rat) :
    AppState :=
  { s with
    units := s.units.map (fun u =>
      if u.id == unit_id then { u with daily_rate := daily_rate } else u) }

/-- `assign_unit(unit_id, tenant_id, start)`: fetches the unit's current
rate (raising `ValueError("Unit not found")` when the unit does not exist)
and inserts an occupancy with `end_date = NULL` and the rate frozen. -/
def assign_unit (s : AppState) (unit_id tenant_id : Nat) (start : Date) :
    Except String AppState :=
  match s.units.find? (fun u => u.id == unit_id) with
  | none => .error "Unit not found"
  | some u =>
      .ok { s with
        occupancies := s.occupancies ++
          [⟨s.nextOccId, unit_id, tenant_id, start, none, u.daily_rate⟩],
        nextOccId := s.nextOccId + 1 }

/-- `end_occupancy(occupancy_id, end)`:
`UPDATE occupancies SET end_date = ? WHERE id = ?`. -/
def end_occupancy (s : AppState) (occupancy_id : Nat) (e : Date) : AppState :=
  { s with
    occupancies := s.occupancies.map (fun o =>
      if o.id == occupancy_id then { o with end_date := some e } else o) }

/-- The JOIN of `compute_billing`'s query: each occupancy row joined (by id)
with its unit's name and its tenant's name; rows without a matching unit or
tenant are dropped by the inner join. -/
def joinRecords (s : AppState) : List OccRecord :=
  s.occupancies.filterMap (fun o =>
    match s.units.find? (fun u => u.id == o.unit_id),
          s.tenants.find? (fun t => t.id == o.tenant_id) with
    | some u, some t =>
        some ⟨u.name, o.tenant_id, t.name, o.start_date, o.end_date,
              o.daily_rate⟩
    | _, _ => none)

/-- `compute_billing(year, month)` reading the occupancies from the
database state. -/
def compute_billing_state (s : AppState) (year month : Nat) :
    Except BillingError (List (Nat × TenantBill)) :=
  compute_billing year month (joinRecords s)

/-- A row of the `invoices` table.  `created_at`/`paid_at` timestamps are
abstracted to naturals. -/
structure Invoice where
  id : Nat
  tenant_id : Nat
  year : Nat
  month : Nat
  total_amount : Rat
  status : String
  created_at : Nat
  paid_at : Option Nat
deriving DecidableEq, Repr

/-- A row of the `invoice_items` table. -/
structure InvoiceItem where
  invoice_id : Nat
  unit_name : String
  days : Int
  daily_rate : Rat
  amount : Rat
deriving DecidableEq, Repr

/-- The invoices/invoice_items portion of the database.  `nextInvoiceId` is
the autoincrement counter of the invoices table; rows are kept in insertion
order. -/
structure InvStore where
  invoices : List Invoice
  items : List InvoiceItem
  nextInvoiceId : Nat
deriving DecidableEq, Repr

/-- The WHERE clause `tenant_id = ? AND year = ? AND month = ?`. -/
def keyMatches (tid y m : Nat) (i : Invoice) : Bool :=
  i.tenant_id == tid && i.year == y && i.month == m

/-- The invoice_items rows inserted for one invoice from its draft items. -/
def storeItems (iid : Nat) (its : List LineItem) : List InvoiceItem :=
  its.map (fun it => ⟨iid, it.unit_name, it.days, it.daily_rate, it.charge⟩)

/-- The body of the per-tenant loop of `create_invoices`: look the invoice
up by (tenant, year, month); if found, delete its items and overwrite the
header (total, status 'pending', fresh `created_at`, `paid_at = NULL`);
otherwise insert a new invoice row; then insert the freshly computed items. -/
def upsertInvoice (y m now : Nat) (s : InvStore) (tid : Nat)
    (b : TenantBill) : InvStore :=
  match s.invoices.find? (keyMatches tid y m) with
  | some inv =>
      { invoices := s.invoices.map (fun i =>
          if i.id == inv.id then
            { i with total_amount := b.total, status := "pending",
                     created_at := now, paid_at := none }
          else i),
        items := s.items.filter (fun it => it.invoice_id != inv.id) ++
          storeItems inv.id b.items,
        nextInvoiceId := s.nextInvoiceId }
  | none =>
      { invoices := s.invoices ++
          [⟨s.nextInvoiceId, tid, y, m, b.total, "pending", now, none⟩],
        items := s.items ++ storeItems s.nextInvoiceId b.items,
        nextInvoiceId := s.nextInvoiceId + 1 }

/-- `create_invoices(year, month)`: computes the billing dictionary and
upserts one invoice per tenant entry, in the dictionary's insertion order.
`now` abstracts `datetime.utcnow().isoformat()`. -/
def create_invoices (year month now : Nat) (occs : List OccRecord)
    (s : InvStore) : InvStore :=
  (compute_billing_records year month occs).foldl
    (fun st e => upsertInvoice year month now st e.1 e.2) s

/-- The caller invariant on an occupancy record: the end date, when present,
does not precede the start date. -/
def validRange (r : OccRecord) : Bool :=
  match r.end_date with
  | none => true
  | some e => dateLe r.start_date e

/-- The spec-side test that an occupancy interval intersects the calendar
month `[first_day, last_day]` (inclusive intervals, an open end reaching
past month-end): the start is not after the last day and the end, when
present, is not before the first day. -/
def intersectsMonth (year month : Nat) (r : OccRecord) : Bool :=
  dateLe r.start_date (lastDay year month) &&
  (match r.end_date with
   | none => true
   | some e => dateLe (firstDay year month) e)

/-- Python's `billing[tid]` lookup on the association-list model of the
billing dictionary. -/
def assocFind (l : List (Nat × TenantBill)) (tid : Nat) : Option TenantBill :=
  Option.map Prod.snd (l.find? (fun e => e.1 == tid))

/-- C2: on the concrete February-2024 scenario — tenant 1 ("T1") occupying
"U1" from 2024-02-01 open-ended at rate 10 and "U2" from 2024-02-15 to
2024-02-20 at rate 20 — `compute_billing` yields for tenant 1 the items
(U1, 29 days, rate 10, amount 290) and (U2, 6 days, rate 20, amount 120) in
that order, with total 410. -/
theorem compute_billing_feb2024_scenario :
    compute_billing 2024 2
      [⟨"U1", 1, "T1", ⟨2024, 2, 1⟩, none, 10⟩,
       ⟨"U2", 1, "T1", ⟨2024, 2, 15⟩, some ⟨2024, 2, 20⟩, 20⟩]
    = .ok [(1, ⟨"T1",
        [⟨"U1", 29, 10, 290⟩, ⟨"U2", 6, 20, 120⟩], 410⟩)] := by
  have hrec : compute_billing_records 2024 2
      [⟨"U1", 1, "T1", ⟨2024, 2, 1⟩, none, 10⟩,
       ⟨"U2", 1, "T1", ⟨2024, 2, 15⟩, some ⟨2024, 2, 20⟩, 20⟩]
      = [(1, ⟨"T1", [⟨"U1", 29, 10, 290⟩, ⟨"U2", 6, 20, 120⟩], 410⟩)] := by
    simp [compute_billing_records, billStep, appendItem, ensureTenant,
      recordItem, sqlOverlap, dateLe, effectiveEnd, dateMin, dateMax, dateSub,
      firstDay, lastDay, daysInMonth, isLeap, toOrdinal, daysBeforeYear,
      daysBeforeMonth]
    norm_num
  simp [compute_billing, validPeriod, hrec]

/-- C4: an occupancy whose end date (2024-02-05) precedes its start date
(2024-02-10) is not rejected by `compute_billing(2024, 2)`: no error of any
kind is raised; instead a line item with days = -4 and a negative charge is
produced (the code contains no `InvalidRangeError` and performs no
validation of the range). -/
theorem invalid_range_not_rejected :
    compute_billing 2024 2
      [⟨"U1", 1, "T1", ⟨2024, 2, 10⟩, some ⟨2024, 2, 5⟩, 10⟩]
    = .ok [(1, ⟨"T1", [⟨"U1", -4, 10, -40⟩], -40⟩)] := by
  have hrec : compute_billing_records 2024 2
      [⟨"U1", 1, "T1", ⟨2024, 2, 10⟩, some ⟨2024, 2, 5⟩, 10⟩]
      = [(1, ⟨"T1", [⟨"U1", -4, 10, -40⟩], -40⟩)] := by
    simp [compute_billing_records, billStep, appendItem, ensureTenant,
      recordItem, sqlOverlap, dateLe, effectiveEnd, dateMin, dateMax, dateSub,
      firstDay, lastDay, daysInMonth, isLeap, toOrdinal, daysBeforeYear,
      daysBeforeMonth]
    norm_num
  simp [compute_billing, validPeriod, hrec]

/-- C8: the occupancy lifecycle does not preserve the claimed invariants.
From a state with one unit and no occupancies, `assign_unit` succeeds twice
in a row on the same unit, leaving two occupancies of unit 1 with
`end_date = NULL` (double booking); and `end_occupancy` then accepts an end
date (2023-12-31) preceding the occupancy's start date (2024-01-01), leaving
a stored occupancy with `end_date < start_date`. -/
theorem occupancy_invariants_violated :
    assign_unit ⟨[⟨1, "U1", 10⟩], [⟨1, "T1"⟩, ⟨2, "T2"⟩], [], 1⟩ 1 1
        ⟨2024, 1, 1⟩
      = .ok ⟨[⟨1, "U1", 10⟩], [⟨1, "T1"⟩, ⟨2, "T2"⟩],
             [⟨1, 1, 1, ⟨2024, 1, 1⟩, none, 10⟩], 2⟩
    ∧ assign_unit ⟨[⟨1, "U1", 10⟩], [⟨1, "T1"⟩, ⟨2, "T2"⟩],
             [⟨1, 1, 1, ⟨2024, 1, 1⟩, none, 10⟩], 2⟩ 1 2 ⟨2024, 1, 5⟩
      = .ok ⟨[⟨1, "U1", 10⟩], [⟨1, "T1"⟩, ⟨2, "T2"⟩],
             [⟨1, 1, 1, ⟨2024, 1, 1⟩, none, 10⟩,
              ⟨2, 1, 2, ⟨2024, 1, 5⟩, none, 10⟩], 3⟩
    ∧ (List.filter (fun o => o.unit_id == 1 && o.end_date == none)
         ([⟨1, 1, 1, ⟨2024, 1, 1⟩, none, 10⟩,
           ⟨2, 1, 2, ⟨2024, 1, 5⟩, none, 10⟩] : List Occupancy)).length = 2
    ∧ ((end_occupancy ⟨[⟨1, "U1", 10⟩], [⟨1, "T1"⟩, ⟨2, "T2"⟩],
             [⟨1, 1, 1, ⟨2024, 1, 1⟩, none, 10⟩,
              ⟨2, 1, 2, ⟨2024, 1, 5⟩, none, 10⟩], 3⟩ 1
             ⟨2023, 12, 31⟩).occupancies.filter
         (fun o => match o.end_date with
          | some e => decide (toOrdinal e < toOrdinal o.start_date)
          | none => false)).length = 1 := by
  refine ⟨rfl, rfl, rfl, ?_⟩
  rfl

/-- C9: for any month outside 1–12, `compute_billing` fails (the first
`date(year, month, 1)` construction rejects the period) whatever the
occupancy store contains — the result is the period error uniformly in the
store, so the store is never consulted and no billing result is produced. -/
theorem unknown_period_rejected (year month : Nat) (occs : List OccRecord)
    (h : month < 1 ∨ 12 < month) :
    compute_billing year month occs = .error .unknownPeriod := by
  have hv : validPeriod year month = false := by
    simp only [validPeriod, decide_eq_false_iff_not]
    omega
  simp [compute_billing, hv]

/-- C9 witness: month 13 of 2025 is rejected on the empty store. -/
theorem unknown_period_rejected_witness :
    compute_billing 2025 13 [] = .error .unknownPeriod :=
  unknown_period_rejected 2025 13 [] (Or.inr (by omega))

/-- C10: when no stored unit has the requested id, `assign_unit` fails with
`ValueError("Unit not found")` and no occupancy is inserted (no success
state is produced at all). -/
theorem assign_unit_unknown_unit (s : AppState) (unit_id tenant_id : Nat)
    (start : Date)
    (h : s.units.find? (fun u => u.id == unit_id) = none) :
    assign_unit s unit_id tenant_id start = .error "Unit not found" := by
  unfold assign_unit
  rw [h]

/-- C10 witness: assigning unit 5 in a store holding only unit 1 fails. -/
theorem assign_unit_unknown_unit_witness :
    assign_unit ⟨[⟨1, "U1", 10⟩], [⟨1, "T1"⟩], [], 1⟩ 5 1 ⟨2024, 3, 1⟩
      = .error "Unit not found" :=
  assign_unit_unknown_unit ⟨[⟨1, "U1", 10⟩], [⟨1, "T1"⟩], [], 1⟩ 5 1
    ⟨2024, 3, 1⟩ rfl

/-- Updating a unit's rate touches neither the id nor the name of any unit. -/
lemma units_update_id_name (units : List StorageUnit) (unit_id : Nat)
    (rate : Rat) :
    (units.map (fun u =>
        if u.id == unit_id then { u with daily_rate := rate } else u)).map
      (fun u => (u.id, u.name))
    = units.map (fun u => (u.id, u.name)) := by
  induction units with
  | nil => rfl
  | cons u us ih =>
      simp only [List.map_cons, ih]
      refine congrArg (fun p => p :: _) ?_
      split <;> rfl

/-- The join of `compute_billing`'s query is unchanged by a unit-rate
update: the join reads only ids and names from the units table. -/
lemma joinRecords_update_unit_rate (s : AppState) (unit_id : Nat)
    (rate : Rat) :
    joinRecords (update_unit_rate s unit_id rate) = joinRecords s := by
  unfold joinRecords update_unit_rate
  refine List.filterMap_congr ?_
  intro o _
  have hpred : ((fun u : StorageUnit => u.id == o.unit_id) ∘ (fun u =>
      if u.id == unit_id then { u with daily_rate := rate } else u))
      = (fun u : StorageUnit => u.id == o.unit_id) := by
    funext u
    simp only [Function.comp]
    split <;> rfl
  rw [List.find?_map, hpred]
  cases hu : s.units.find? (fun u => u.id == o.unit_id) with
  | none =>
      cases ht : s.tenants.find? (fun t => t.id == o.tenant_id) <;> rfl
  | some u =>
      cases ht : s.tenants.find? (fun t => t.id == o.tenant_id) with
      | none => simp only [Option.map_some']
      | some t =>
          simp only [Option.map_some']
          split <;> rfl

/-- C7: `update_unit_rate` leaves every occupancy (in particular its frozen
`daily_rate`) and every tenant unchanged, changes no unit's id or name, and
for every period the billing computed from the stored occupancies is
identical before and after the rate change. -/
theorem update_unit_rate_frame (s : AppState) (unit_id : Nat) (rate : Rat) :
    (update_unit_rate s unit_id rate).occupancies = s.occupancies
    ∧ (update_unit_rate s unit_id rate).tenants = s.tenants
    ∧ (update_unit_rate s unit_id rate).units.map (fun u => (u.id, u.name))
        = s.units.map (fun u => (u.id, u.name))
    ∧ ∀ year month : Nat,
        compute_billing_state (update_unit_rate s unit_id rate) year month
          = compute_billing_state s year month := by
  refine ⟨rfl, rfl, units_update_id_name s.units unit_id rate, ?_⟩
  intro year month
  unfold compute_billing_state
  rw [joinRecords_update_unit_rate]

/-- `max` of two dates has the larger ordinal. -/
lemma toOrdinal_dateMax (a b : Date) :
    toOrdinal (dateMax a b) = max (toOrdinal a) (toOrdinal b) := by
  unfold dateMax
  split <;> omega

/-- `min` of two dates has the smaller ordinal. -/
lemma toOrdinal_dateMin (a b : Date) :
    toOrdinal (dateMin a b) = min (toOrdinal a) (toOrdinal b) := by
  unfold dateMin
  split <;> omega

/-- The `days` computed for a record is the inclusive overlap length of the
occupancy interval and `[first_day, last_day]`, in ordinal arithmetic. -/
lemma recordItem_days (first last : Date) (o : OccRecord) :
    (recordItem first last o).days
      = min (toOrdinal (effectiveEnd o last) : Int) (toOrdinal last : Int)
        - max (toOrdinal o.start_date : Int) (toOrdinal first : Int) + 1 := by
  simp only [recordItem, dateSub, toOrdinal_dateMin, toOrdinal_dateMax]
  push_cast
  ring

/-- The month is a non-degenerate interval: every month has at least one
day. -/
lemma one_le_daysInMonth (y m : Nat) : 1 ≤ daysInMonth y m := by
  unfold daysInMonth
  split
  · split <;> omega
  · split <;> omega

/-- The first day of a month is not after its last day. -/
lemma firstDay_le_lastDay (year month : Nat) :
    toOrdinal (firstDay year month) ≤ toOrdinal (lastDay year month) := by
  have h := one_le_daysInMonth year month
  simp only [firstDay, lastDay, toOrdinal]
  omega

/-- On records satisfying the range invariant, the three OR'd conditions of
the SQL overlap query coincide with plain inclusive-interval intersection. -/
lemma sqlOverlap_iff_intersects (year month : Nat) (r : OccRecord)
    (hv : validRange r = true) :
    sqlOverlap (firstDay year month) (lastDay year month) r = true ↔
      intersectsMonth year month r = true := by
  cases he : r.end_date with
  | none =>
      simp only [sqlOverlap, intersectsMonth, he, dateLe, Bool.or_eq_true,
        Bool.and_eq_true, decide_eq_true_eq, Bool.false_eq_true, and_true,
        or_false]
      omega
  | some e =>
      have hv2 : toOrdinal r.start_date ≤ toOrdinal e := by
        simpa [validRange, he, dateLe] using hv
      simp only [sqlOverlap, intersectsMonth, he, dateLe, Bool.or_eq_true,
        Bool.and_eq_true, decide_eq_true_eq, Bool.false_eq_true, and_true,
        or_false]
      omega

/-- A selected record with a valid range contributes at least one billed
day. -/
lemma recordItem_days_pos (year month : Nat) (r : OccRecord)
    (hv : validRange r = true)
    (hq : sqlOverlap (firstDay year month) (lastDay year month) r = true) :
    1 ≤ (recordItem (firstDay year month) (lastDay year month) r).days := by
  have hi := (sqlOverlap_iff_intersects year month r hv).mp hq
  have hfl := firstDay_le_lastDay year month
  rw [recordItem_days]
  cases he : r.end_date with
  | none =>
      simp only [intersectsMonth, he, dateLe, Bool.and_eq_true,
        decide_eq_true_eq] at hi
      simp only [effectiveEnd, he]
      omega
  | some e =>
      have hv2 : toOrdinal r.start_date ≤ toOrdinal e := by
        simpa [validRange, he, dateLe] using hv
      simp only [intersectsMonth, he, dateLe, Bool.and_eq_true,
        decide_eq_true_eq] at hi
      simp only [effectiveEnd, he]
      omega

/-- C1: an occupancy with a valid range whose interval intersects the target
month is selected by the query, and its line item's `days` is the inclusive
overlap length `min(effective_end, last_day) - max(occ_start, first_day) + 1`
(in ordinals); in particular a one-day occupancy lying in the month yields
1 day, and an open-ended occupancy starting on day `d` of the month yields
`days_in_month - d + 1`. -/
theorem overlap_days_formula (year month : Nat) (r : OccRecord)
    (hv : validRange r = true)
    (hi : intersectsMonth year month r = true) :
    sqlOverlap (firstDay year month) (lastDay year month) r = true
    ∧ (recordItem (firstDay year month) (lastDay year month) r).days
        = min (toOrdinal (effectiveEnd r (lastDay year month)) : Int)
            (toOrdinal (lastDay year month) : Int)
          - max (toOrdinal r.start_date : Int)
              (toOrdinal (firstDay year month) : Int) + 1
    ∧ (∀ d : Nat, r.start_date = ⟨year, month, d⟩ →
        r.end_date = some ⟨year, month, d⟩ →
        (recordItem (firstDay year month) (lastDay year month) r).days = 1)
    ∧ (∀ d : Nat, r.end_date = none → r.start_date = ⟨year, month, d⟩ →
        1 ≤ d →
        (recordItem (firstDay year month) (lastDay year month) r).days
          = (daysInMonth year month : Int) - (d : Int) + 1) := by
  refine ⟨(sqlOverlap_iff_intersects year month r hv).mpr hi,
    recordItem_days (firstDay year month) (lastDay year month) r, ?_, ?_⟩
  · intro d hs he
    rw [recordItem_days]
    simp only [intersectsMonth, hs, he, dateLe, Bool.and_eq_true,
      decide_eq_true_eq, firstDay, lastDay, toOrdinal] at hi
    simp only [effectiveEnd, he, hs, firstDay, lastDay, toOrdinal]
    omega
  · intro d he hs hd
    rw [recordItem_days]
    simp only [intersectsMonth, hs, he, dateLe, Bool.and_eq_true,
      decide_eq_true_eq, firstDay, lastDay, toOrdinal] at hi
    simp only [effectiveEnd, he, hs, firstDay, lastDay, toOrdinal]
    omega

/-- C1 witness: a one-day occupancy on 2024-03-12 is selected for March
2024 and billed exactly one day. -/
theorem overlap_days_formula_witness :
    sqlOverlap (firstDay 2024 3) (lastDay 2024 3)
      ⟨"U9", 4, "T4", ⟨2024, 3, 12⟩, some ⟨2024, 3, 12⟩, 5⟩ = true
    ∧ (recordItem (firstDay 2024 3) (lastDay 2024 3)
        ⟨"U9", 4, "T4", ⟨2024, 3, 12⟩, some ⟨2024, 3, 12⟩, 5⟩).days = 1 := by
  have h := overlap_days_formula 2024 3
    ⟨"U9", 4, "T4", ⟨2024, 3, 12⟩, some ⟨2024, 3, 12⟩, 5⟩
    (by decide) (by decide)
  exact ⟨h.1, h.2.2.1 12 rfl rfl⟩

/-- Total of a list of line items as the loop accumulates it (left fold of
`+=` from 0). -/
def chargesTotal (its : List LineItem) : Rat :=
  (its.map LineItem.charge).foldl (· + ·) 0

/-- Appending one item adds its charge to the accumulated total. -/
lemma chargesTotal_append (its : List LineItem) (it : LineItem) :
    chargesTotal (its ++ [it]) = chargesTotal its + it.charge := by
  unfold chargesTotal
  simp

/-- Left-folding addition from an offset over rationals. -/
lemma foldl_add_eq_sum (l : List Rat) (a : Rat) :
    l.foldl (· + ·) a = a + l.sum := by
  induction l generalizing a with
  | nil => simp
  | cons x xs ih =>
      simp only [List.foldl_cons, List.sum_cons, ih, add_assoc]

/-- The accumulated total is the sum of the charges. -/
lemma chargesTotal_eq_sum (its : List LineItem) :
    chargesTotal its = (its.map LineItem.charge).sum := by
  unfold chargesTotal
  rw [foldl_add_eq_sum]
  simp

/-- Dictionary lookup on the empty dictionary. -/
lemma assocFind_nil (tid : Nat) : assocFind [] tid = none := rfl

/-- Dictionary lookup on a cons cell. -/
lemma assocFind_cons (x : Nat × TenantBill) (xs : List (Nat × TenantBill))
    (tid : Nat) :
    assocFind (x :: xs) tid
      = if x.1 == tid then some x.2 else assocFind xs tid := by
  unfold assocFind
  cases h : (x.1 == tid) with
  | true => simp [List.find?_cons_of_pos, h]
  | false => simp [List.find?_cons_of_neg, h]

/-- A dictionary entry exists exactly when some pair carries the key. -/
lemma assocFind_isSome_any (l : List (Nat × TenantBill)) (tid : Nat) :
    (assocFind l tid).isSome = l.any (fun e => e.1 == tid) := by
  induction l with
  | nil => rfl
  | cons e es ih =>
      rw [assocFind_cons]
      cases h : (e.1 == tid) <;> simp [h, ih]

/-- `appendItem` on a cons cell, stepwise. -/
lemma appendItem_cons (e : Nat × TenantBill) (es : List (Nat × TenantBill))
    (tid : Nat) (it : LineItem) :
    appendItem (e :: es) tid it
      = (if e.1 == tid then
          (e.1, (⟨e.2.tenant_name, e.2.items ++ [it],
            e.2.total + it.charge⟩ : TenantBill))
         else e) :: appendItem es tid it := rfl

/-- Looking up the addressed key after `appendItem`: the entry gets the
item appended and the charge added to the total. -/
lemma assocFind_appendItem_self (l : List (Nat × TenantBill)) (tid : Nat)
    (it : LineItem) :
    assocFind (appendItem l tid it) tid
      = (assocFind l tid).map (fun b =>
          (⟨b.tenant_name, b.items ++ [it], b.total + it.charge⟩ :
            TenantBill)) := by
  induction l with
  | nil => rfl
  | cons e es ih =>
      rw [appendItem_cons, assocFind_cons, assocFind_cons]
      by_cases hc : e.1 = tid
      · simp [hc]
      · simp [hc, ih]

/-- Looking up any other key after `appendItem`: untouched. -/
lemma assocFind_appendItem_other (l : List (Nat × TenantBill))
    (tid tid' : Nat) (it : LineItem) (h : tid' ≠ tid) :
    assocFind (appendItem l tid it) tid' = assocFind l tid' := by
  induction l with
  | nil => rfl
  | cons e es ih =>
      rw [appendItem_cons, assocFind_cons, assocFind_cons]
      by_cases hc : e.1 = tid
      · simp [hc, ih, Ne.symm h]
      · simp [hc, ih]

/-- When the tenant is already a key of the dictionary, `ensureTenant` is
the identity. -/
lemma ensureTenant_present (l : List (Nat × TenantBill)) (tid : Nat)
    (tn : String) (h : l.any (fun e => e.1 == tid) = true) :
    ensureTenant l tid tn = l := by
  unfold ensureTenant
  simp [h]

/-- When the tenant is a new key, `ensureTenant` appends an empty entry. -/
lemma ensureTenant_absent (l : List (Nat × TenantBill)) (tid : Nat)
    (tn : String) (h : l.any (fun e => e.1 == tid) = false) :
    ensureTenant l tid tn = l ++ [(tid, ⟨tn, [], 0⟩)] := by
  unfold ensureTenant
  simp [h]

/-- Lookup after appending a single entry at the end. -/
lemma assocFind_append (l : List (Nat × TenantBill)) (y : Nat × TenantBill)
    (tid : Nat) :
    assocFind (l ++ [y]) tid
      = match assocFind l tid with
        | some b => some b
        | none => if y.1 == tid then some y.2 else none := by
  unfold assocFind
  rw [List.find?_append]
  cases l.find? (fun e => e.1 == tid) with
  | some e => simp [Option.or]
  | none => cases h : (y.1 == tid) <;> simp [Option.or, h]

/-- The loop invariant of `compute_billing`'s record loop: after consuming
the records `done`, the accumulated dictionary has an entry exactly for the
tenants occurring in `done`, each entry's items are the items of that
tenant's records in consumption order, and each total is the accumulated
sum of its charges. -/
def BillingInv (first last : Date) (done : List OccRecord)
    (acc : List (Nat × TenantBill)) : Prop :=
  (∀ tid : Nat, (assocFind acc tid).isSome
      = done.any (fun x => x.tenant_id == tid))
  ∧ ∀ tid b, assocFind acc tid = some b →
      b.items = (done.filter (fun x => x.tenant_id == tid)).map
        (recordItem first last)
      ∧ b.total = chargesTotal b.items

/-- One loop iteration preserves the invariant. -/
lemma billStep_inv (first last : Date) (done : List OccRecord)
    (acc : List (Nat × TenantBill)) (r : OccRecord)
    (h : BillingInv first last done acc) :
    BillingInv first last (done ++ [r]) (billStep first last acc r) := by
  obtain ⟨h1, h2⟩ := h
  have hdone : done.any (fun x => x.tenant_id == r.tenant_id)
      = (assocFind acc r.tenant_id).isSome := (h1 r.tenant_id).symm
  unfold billStep
  cases hp : acc.any (fun e => e.1 == r.tenant_id) with
  | true =>
      rw [ensureTenant_present acc r.tenant_id r.tenant_name hp]
      have hsome : (assocFind acc r.tenant_id).isSome = true := by
        rw [assocFind_isSome_any]
        exact hp
      obtain ⟨b0, hb0⟩ := Option.isSome_iff_exists.mp hsome
      constructor
      · intro tid
        by_cases ht : tid = r.tenant_id
        · subst ht
          rw [assocFind_appendItem_self, hb0]
          simp [List.any_append, hdone, hb0]
        · rw [assocFind_appendItem_other acc r.tenant_id tid _ ht]
          have hrt : (r.tenant_id == tid) = false := by
            simp
            exact fun hh => ht hh.symm
          simp [List.any_append, hrt, h1 tid]
      · intro tid b hb
        by_cases ht : tid = r.tenant_id
        · subst ht
          rw [assocFind_appendItem_self, hb0] at hb
          simp only [Option.map_some', Option.some.injEq] at hb
          obtain ⟨hi0, ht0⟩ := h2 r.tenant_id b0 hb0
          subst hb
          constructor
          · simp only [List.filter_append, List.map_append, hi0]
            simp [List.filter_cons]
          · simp [chargesTotal_append, ht0]
        · rw [assocFind_appendItem_other acc r.tenant_id tid _ ht] at hb
          have hrt : (r.tenant_id == tid) = false := by
            simp
            exact fun hh => ht hh.symm
          obtain ⟨hi0, ht0⟩ := h2 tid b hb
          constructor
          · simp only [List.filter_append, List.map_append, hi0]
            simp [List.filter_cons, hrt]
          · exact ht0
  | false =>
      rw [ensureTenant_absent acc r.tenant_id r.tenant_name hp]
      have hnone : assocFind acc r.tenant_id = none := by
        have := assocFind_isSome_any acc r.tenant_id
        rw [hp] at this
        exact Option.not_isSome_iff_eq_none.mp (by simp [this])
      constructor
      · intro tid
        by_cases ht : tid = r.tenant_id
        · subst ht
          rw [assocFind_appendItem_self, assocFind_append, hnone]
          simp [List.any_append]
        · rw [assocFind_appendItem_other _ r.tenant_id tid _ ht,
            assocFind_append]
          have hrt : (r.tenant_id == tid) = false := by
            simp
            exact fun hh => ht hh.symm
          cases hf : assocFind acc tid with
          | some b =>
              have : (assocFind acc tid).isSome = true := by rw [hf]; rfl
              rw [h1 tid] at this
              simp [List.any_append, this, hrt]
          | none =>
              have : (assocFind acc tid).isSome = false := by rw [hf]; rfl
              rw [h1 tid] at this
              simp [List.any_append, this, hrt]
      · intro tid b hb
        by_cases ht : tid = r.tenant_id
        · subst ht
          rw [assocFind_appendItem_self, assocFind_append, hnone] at hb
          simp only [beq_self_eq_true, if_true, Option.map_some',
            Option.some.injEq] at hb
          have hany : done.any (fun x => x.tenant_id == r.tenant_id)
              = false := by
            rw [hdone, hnone]
            rfl
          have hfilter : done.filter (fun x => x.tenant_id == r.tenant_id)
              = [] := by
            rw [List.filter_eq_nil_iff]
            rw [List.any_eq_false] at hany
            exact hany
          subst hb
          constructor
          · simp only [List.filter_append, List.map_append, hfilter]
            simp [List.filter_cons]
          · simp [chargesTotal]
        · rw [assocFind_appendItem_other _ r.tenant_id tid _ ht,
            assocFind_append] at hb
          have hrt : (r.tenant_id == tid) = false := by
            simp
            exact fun hh => ht hh.symm
          cases hf : assocFind acc tid with
          | some b1 =>
              rw [hf] at hb
              simp only [] at hb
              obtain ⟨hi0, ht0⟩ := h2 tid b1 hf
              have hbb : b = b1 := by
                cases hb
                rfl
              subst hbb
              constructor
              · simp only [List.filter_append, List.map_append, hi0]
                simp [List.filter_cons, hrt]
              · exact ht0
          | none =>
              rw [hf] at hb
              simp only [hrt] at hb
              cases hb

/-- The invariant extends over the whole fold. -/
lemma bfold_inv (first last : Date) (rs : List OccRecord) :
    ∀ (done : List OccRecord) (acc : List (Nat × TenantBill)),
      BillingInv first last done acc →
      BillingInv first last (done ++ rs)
        (rs.foldl (billStep first last) acc) := by
  induction rs with
  | nil =>
      intro done acc h
      simpa using h
  | cons r rs ih =>
      intro done acc h
      have h1 := billStep_inv first last done acc r h
      have h2 := ih (done ++ [r]) (billStep first last acc r) h1
      simpa [List.append_assoc] using h2

/-- The characterization of `compute_billing`'s result: the invariant holds
for the full list of selected records. -/
lemma billing_inv (year month : Nat) (occs : List OccRecord) :
    BillingInv (firstDay year month) (lastDay year month)
      (occs.filter (sqlOverlap (firstDay year month) (lastDay year month)))
      (compute_billing_records year month occs) := by
  have h0 : BillingInv (firstDay year month) (lastDay year month) [] [] := by
    constructor
    · intro tid
      rfl
    · intro tid b hb
      simp [assocFind] at hb
  have h := bfold_inv (firstDay year month) (lastDay year month)
    (occs.filter (sqlOverlap (firstDay year month) (lastDay year month)))
    [] [] h0
  simpa [compute_billing_records] using h

/-- C6: every line item of a billing entry carries
`amount = days * daily_rate` computed exactly, the entry's total is the sum
of its items' amounts, and the items are exactly the qualifying occupancies
of that tenant in the order they were supplied. -/
theorem billing_item_invariants (year month : Nat) (occs : List OccRecord)
    (tid : Nat) (b : TenantBill)
    (hb : assocFind (compute_billing_records year month occs) tid = some b) :
    (∀ it ∈ b.items, it.charge = (it.days : Rat) * it.daily_rate)
    ∧ b.total = (b.items.map LineItem.charge).sum
    ∧ b.items = ((occs.filter (sqlOverlap (firstDay year month)
        (lastDay year month))).filter (fun x => x.tenant_id == tid)).map
          (recordItem (firstDay year month) (lastDay year month)) := by
  have hinv := billing_inv year month occs
  have hc := hinv.2 tid b hb
  refine ⟨?_, ?_, hc.1⟩
  · intro it hit
    rw [hc.1] at hit
    obtain ⟨r, hr, hre⟩ := List.mem_map.mp hit
    rw [← hre]
    rfl
  · rw [hc.2, chargesTotal_eq_sum]

/-- C6 witness: a two-day occupancy in May 2024 produces an entry whose
stored total equals the sum of its item amounts. -/
theorem billing_item_invariants_witness :
    (⟨"T3", [⟨"U5", 2, 7, 14⟩], 14⟩ : TenantBill).total
      = ((⟨"T3", [⟨"U5", 2, 7, 14⟩], 14⟩ : TenantBill).items.map
          LineItem.charge).sum := by
  have hb : assocFind (compute_billing_records 2024 5
      [⟨"U5", 3, "T3", ⟨2024, 5, 10⟩, some ⟨2024, 5, 11⟩, 7⟩]) 3
      = some ⟨"T3", [⟨"U5", 2, 7, 14⟩], 14⟩ := by
    simp [compute_billing_records, billStep, appendItem, ensureTenant,
      recordItem, sqlOverlap, dateLe, effectiveEnd, dateMin, dateMax,
      dateSub, firstDay, lastDay, daysInMonth, isLeap, toOrdinal,
      daysBeforeYear, daysBeforeMonth, assocFind]
    norm_num
  exact (billing_item_invariants 2024 5
    [⟨"U5", 3, "T3", ⟨2024, 5, 10⟩, some ⟨2024, 5, 11⟩, 7⟩] 3
    ⟨"T3", [⟨"U5", 2, 7, 14⟩], 14⟩ hb).2.1

/-- C3: under the range invariant, the billing dictionary has an entry for
a tenant exactly when the tenant has an occupancy intersecting the month,
every entry's item list is non-empty, and no item has `days = 0`. -/
theorem billing_entries_iff (year month : Nat) (occs : List OccRecord)
    (hm : validPeriod year month = true)
    (hv : ∀ r ∈ occs, validRange r = true) (tid : Nat) :
    ((assocFind (compute_billing_records year month occs) tid).isSome = true
      ↔ ∃ r ∈ occs, r.tenant_id = tid ∧ intersectsMonth year month r = true)
    ∧ ∀ b, assocFind (compute_billing_records year month occs) tid = some b →
        b.items ≠ [] ∧ ∀ it ∈ b.items, it.days ≠ 0 := by
  have hinv := billing_inv year month occs
  constructor
  · rw [hinv.1 tid, List.any_eq_true]
    constructor
    · rintro ⟨r, hr, hre⟩
      have hmem := List.mem_filter.mp hr
      exact ⟨r, hmem.1, by simpa using hre,
        (sqlOverlap_iff_intersects year month r (hv r hmem.1)).mp hmem.2⟩
    · rintro ⟨r, hr, hrt, hri⟩
      exact ⟨r, List.mem_filter.mpr ⟨hr,
        (sqlOverlap_iff_intersects year month r (hv r hr)).mpr hri⟩,
        by simpa using hrt⟩
  · intro b hb
    have hc := hinv.2 tid b hb
    constructor
    · have hsome : (assocFind (compute_billing_records year month occs)
          tid).isSome = true := by
        rw [hb]
        rfl
      rw [hinv.1 tid, List.any_eq_true] at hsome
      obtain ⟨r, hr, hre⟩ := hsome
      rw [hc.1]
      have hmem : r ∈ (occs.filter (sqlOverlap (firstDay year month)
          (lastDay year month))).filter (fun x => x.tenant_id == tid) :=
        List.mem_filter.mpr ⟨hr, hre⟩
      exact List.ne_nil_of_mem (List.mem_map_of_mem _ hmem)
    · intro it hit
      rw [hc.1] at hit
      obtain ⟨r, hr, hre⟩ := List.mem_map.mp hit
      have hrf := List.mem_filter.mp hr
      have hrq := List.mem_filter.mp hrf.1
      have hpos := recordItem_days_pos year month r (hv r hrq.1) hrq.2
      rw [← hre]
      omega

/-- C3 witness: an open-ended occupancy from December 2024 yields an entry
for tenant 9 in January 2025. -/
theorem billing_entries_iff_witness :
    (assocFind (compute_billing_records 2025 1
      [⟨"U7", 9, "T9", ⟨2024, 12, 15⟩, none, 3⟩]) 9).isSome = true := by
  have h := billing_entries_iff 2025 1
    [⟨"U7", 9, "T9", ⟨2024, 12, 15⟩, none, 3⟩] (by decide) (by decide) 9
  exact h.1.mpr ⟨⟨"U7", 9, "T9", ⟨2024, 12, 15⟩, none, 3⟩,
    List.mem_singleton.mpr rfl, rfl, by decide⟩

/-- The invoice rows stored for a given (tenant, year, month) key. -/
def invoicesForKey (s : InvStore) (tid y m : Nat) : List Invoice :=
  s.invoices.filter (keyMatches tid y m)

/-- The item data (unit name, days, rate, amount) stored for an invoice id,
in table order. -/
def itemsData (s : InvStore) (iid : Nat) :
    List (String × Int × Rat × Rat) :=
  (s.items.filter (fun it => it.invoice_id == iid)).map
    (fun it => (it.unit_name, it.days, it.daily_rate, it.amount))

/-- The item data of a draft's line items. -/
def draftData (its : List LineItem) : List (String × Int × Rat × Rat) :=
  its.map (fun it => (it.unit_name, it.days, it.daily_rate, it.charge))

/-- The invoice store records the draft `b` for key (tid, y, m) correctly:
exactly one invoice row with that key exists, carrying the draft's total,
status 'pending', no paid timestamp, and exactly the draft's line items. -/
def billedCorrectly (s : InvStore) (tid y m : Nat) (b : TenantBill) : Prop :=
  ∃ inv, invoicesForKey s tid y m = [inv]
    ∧ inv.total_amount = b.total ∧ inv.status = "pending"
    ∧ inv.paid_at = none
    ∧ itemsData s inv.id = draftData b.items

/-- Well-formedness of the invoice store, as guaranteed by the schema:
primary-key ids are distinct, the UNIQUE(tenant_id, year, month) constraint
holds, and the autoincrement counter is above every id in use. -/
def InvWF (s : InvStore) : Prop :=
  s.invoices.Pairwise (fun a b => a.id ≠ b.id)
  ∧ s.invoices.Pairwise (fun a b =>
      (a.tenant_id, a.year, a.month) ≠ (b.tenant_id, b.year, b.month))
  ∧ (∀ i ∈ s.invoices, i.id < s.nextInvoiceId)
  ∧ (∀ it ∈ s.items, it.invoice_id < s.nextInvoiceId)

/-- In a store with distinct ids, an invoice is determined by its id. -/
lemma inv_id_inj (s : InvStore) (hwf : InvWF s) (a b : Invoice)
    (ha : a ∈ s.invoices) (hb : b ∈ s.invoices) (hid : a.id = b.id) :
    a = b := by
  by_contra hne
  have hsymm : Symmetric (fun a b : Invoice => a.id ≠ b.id) := by
    intro a b h
    exact h.symm
  exact (hwf.1.forall hsymm ha hb hne) hid

/-- When the matches of a predicate exclude each other pairwise, the filter
is exactly the singleton found by `find?`. -/
lemma filter_eq_single_of_find? (p : Invoice → Bool) (l : List Invoice)
    (hp : l.Pairwise (fun a b => ¬(p a = true ∧ p b = true)))
    (inv : Invoice) (hfind : l.find? p = some inv) : l.filter p = [inv] := by
  induction l with
  | nil => cases hfind
  | cons x xs ih =>
      rw [List.pairwise_cons] at hp
      cases hx : p x with
      | true =>
          rw [List.find?_cons_of_pos _ hx] at hfind
          cases hfind
          rw [List.filter_cons_of_pos hx]
          have hnil : xs.filter p = [] := by
            rw [List.filter_eq_nil_iff]
            intro a ha hpa
            exact (hp.1 a ha) ⟨hx, hpa⟩
          rw [hnil]
      | false =>
          rw [List.find?_cons_of_neg _ (by simp [hx])] at hfind
          rw [List.filter_cons_of_neg (by simp [hx])]
          exact ih hp.2 hfind

/-- The UNIQUE constraint renders the key predicate pairwise exclusive. -/
lemma keys_pairwise_exclusive (s : InvStore) (hwf : InvWF s)
    (tid y m : Nat) :
    s.invoices.Pairwise (fun a b =>
      ¬(keyMatches tid y m a = true ∧ keyMatches tid y m b = true)) := by
  refine hwf.2.1.imp ?_
  intro a b hne hk
  apply hne
  have h1 := hk.1
  have h2 := hk.2
  simp only [keyMatches, Bool.and_eq_true, beq_iff_eq] at h1 h2
  rw [h1.1.1, h1.1.2, h1.2, h2.1.1, h2.1.2, h2.2]

/-- The items stored for a draft keep the draft's data in order. -/
lemma storeItems_data (iid : Nat) (its : List LineItem) :
    (storeItems iid its).map
      (fun it => (it.unit_name, it.days, it.daily_rate, it.amount))
    = draftData its := by
  unfold storeItems draftData
  rw [List.map_map]
  rfl

/-- Every stored item of a draft carries the invoice id it was stored
under. -/
lemma storeItems_filter_self (iid : Nat) (its : List LineItem) :
    (storeItems iid its).filter (fun it => it.invoice_id == iid)
      = storeItems iid its := by
  rw [List.filter_eq_self]
  intro a ha
  obtain ⟨it, hit, hae⟩ := List.mem_map.mp ha
  rw [← hae]
  simp

/-- Items of a draft stored under a different invoice id vanish under the
id filter. -/
lemma storeItems_filter_other (iid iid' : Nat) (its : List LineItem)
    (h : iid' ≠ iid) :
    (storeItems iid its).filter (fun it => it.invoice_id == iid') = [] := by
  rw [List.filter_eq_nil_iff]
  intro a ha
  obtain ⟨it, hit, hae⟩ := List.mem_map.mp ha
  rw [← hae]
  simp
  exact fun hh => h hh.symm

/-- The header update of `create_invoices` preserves the key fields of
every invoice row. -/
lemma keyMatches_update (tid y m : Nat) (inv : Invoice) (b : TenantBill)
    (now : Nat) (i : Invoice) :
    keyMatches tid y m (if i.id == inv.id then
        { i with total_amount := b.total, status := "pending",
                 created_at := now, paid_at := none }
      else i) = keyMatches tid y m i := by
  split <;> rfl

/-- The header overwrite applied to the found invoice row. -/
def updHeader (inv : Invoice) (b : TenantBill) (now : Nat) : Invoice :=
  { inv with total_amount := b.total, status := "pending",
             created_at := now, paid_at := none }

/-- After one upsert, the upserted key is billed correctly. -/
lemma upsert_billedCorrectly (y m now : Nat) (s : InvStore) (tid : Nat)
    (b : TenantBill) (hwf : InvWF s) :
    billedCorrectly (upsertInvoice y m now s tid b) tid y m b := by
  unfold upsertInvoice
  cases hfind : s.invoices.find? (keyMatches tid y m) with
  | some inv =>
      refine ⟨updHeader inv b now, ?_, rfl, rfl, rfl, ?_⟩
      · unfold invoicesForKey
        simp only []
        rw [List.filter_map]
        have hcomp : (keyMatches tid y m ∘ (fun i =>
            if i.id == inv.id then
              { i with total_amount := b.total, status := "pending",
                       created_at := now, paid_at := none }
            else i)) = keyMatches tid y m := by
          funext i
          simp only [Function.comp]
          exact keyMatches_update tid y m inv b now i
        rw [hcomp, filter_eq_single_of_find? _ _
          (keys_pairwise_exclusive s hwf tid y m) inv hfind]
        simp [updHeader]
      · unfold itemsData
        simp only [updHeader]
        rw [List.filter_append, List.filter_filter]
        have hnil : s.items.filter (fun a =>
            (a.invoice_id == inv.id) && (a.invoice_id != inv.id)) = [] := by
          rw [List.filter_eq_nil_iff]
          intro a ha
          cases h : (a.invoice_id == inv.id) <;> simp [bne, h]
        rw [hnil, List.nil_append, storeItems_filter_self, storeItems_data]
  | none =>
      refine ⟨⟨s.nextInvoiceId, tid, y, m, b.total, "pending", now, none⟩,
        ?_, rfl, rfl, rfl, ?_⟩
      · unfold invoicesForKey
        simp only []
        rw [List.filter_append]
        have hnil : s.invoices.filter (keyMatches tid y m) = [] := by
          rw [List.filter_eq_nil_iff]
          exact List.find?_eq_none.mp hfind
        rw [hnil, List.nil_append]
        simp [keyMatches]
      · unfold itemsData
        simp only []
        rw [List.filter_append]
        have hnil : s.items.filter (fun it =>
            it.invoice_id == s.nextInvoiceId) = [] := by
          rw [List.filter_eq_nil_iff]
          intro a ha
          have hlt := hwf.2.2.2 a ha
          simp
          omega
        rw [hnil, List.nil_append, storeItems_filter_self, storeItems_data]

/-- The header update preserves every invoice id. -/
lemma id_update (inv : Invoice) (b : TenantBill) (now : Nat) (i : Invoice) :
    (if i.id == inv.id then
        { i with total_amount := b.total, status := "pending",
                 created_at := now, paid_at := none }
      else i).id = i.id := by
  split <;> rfl

/-- The header update preserves every invoice key. -/
lemma key_update (inv : Invoice) (b : TenantBill) (now : Nat) (i : Invoice) :
    ((if i.id == inv.id then
        { i with total_amount := b.total, status := "pending",
                 created_at := now, paid_at := none }
      else i).tenant_id,
     (if i.id == inv.id then
        { i with total_amount := b.total, status := "pending",
                 created_at := now, paid_at := none }
      else i).year,
     (if i.id == inv.id then
        { i with total_amount := b.total, status := "pending",
                 created_at := now, paid_at := none }
      else i).month) = (i.tenant_id, i.year, i.month) := by
  split <;> rfl

/-- Upserting one key leaves every other key's stored invoice untouched. -/
lemma upsert_frame (y m now : Nat) (s : InvStore) (tid tid' : Nat)
    (b b' : TenantBill) (hwf : InvWF s) (hne : tid' ≠ tid)
    (hbc : billedCorrectly s tid' y m b') :
    billedCorrectly (upsertInvoice y m now s tid b) tid' y m b' := by
  obtain ⟨inv', hkey', htot', hstat', hpaid', hitems'⟩ := hbc
  unfold invoicesForKey at hkey'
  have hinv'_filt : inv' ∈ s.invoices.filter (keyMatches tid' y m) := by
    rw [hkey']
    exact List.mem_singleton.mpr rfl
  have hinv'_mem : inv' ∈ s.invoices := (List.mem_filter.mp hinv'_filt).1
  have hinv'_key : keyMatches tid' y m inv' = true :=
    (List.mem_filter.mp hinv'_filt).2
  unfold upsertInvoice
  cases hfind : s.invoices.find? (keyMatches tid y m) with
  | some inv =>
      have hinv_mem : inv ∈ s.invoices := List.mem_of_find?_eq_some hfind
      have hinv_key : keyMatches tid y m inv = true := List.find?_some hfind
      have hid_ne : inv'.id ≠ inv.id := by
        intro hid
        have heq := inv_id_inj s hwf inv' inv hinv'_mem hinv_mem hid
        rw [heq] at hinv'_key
        simp only [keyMatches, Bool.and_eq_true, beq_iff_eq]
          at hinv_key hinv'_key
        exact hne (hinv'_key.1.1.symm.trans hinv_key.1.1)
      refine ⟨inv', ?_, htot', hstat', hpaid', ?_⟩
      · unfold invoicesForKey
        simp only []
        rw [List.filter_map]
        have hcomp : (keyMatches tid' y m ∘ (fun i =>
            if i.id == inv.id then
              { i with total_amount := b.total, status := "pending",
                       created_at := now, paid_at := none }
            else i)) = keyMatches tid' y m := by
          funext i
          simp only [Function.comp]
          exact keyMatches_update tid' y m inv b now i
        rw [hcomp, hkey', List.map_cons, List.map_nil,
          if_neg (by simp [hid_ne])]
      · unfold itemsData at hitems' ⊢
        simp only []
        rw [List.filter_append, List.filter_filter]
        have h1 : s.items.filter (fun a =>
            (a.invoice_id == inv'.id) && (a.invoice_id != inv.id))
            = s.items.filter (fun a => a.invoice_id == inv'.id) := by
          apply List.filter_congr
          intro a _
          cases h : (a.invoice_id == inv'.id) with
          | false => simp [h]
          | true =>
              have ha : a.invoice_id = inv'.id := by simpa using h
              simp [h, bne, ha, hid_ne]
        rw [h1, storeItems_filter_other inv.id inv'.id b.items hid_ne,
          List.append_nil]
        exact hitems'
  | none =>
      refine ⟨inv', ?_, htot', hstat', hpaid', ?_⟩
      · unfold invoicesForKey
        simp only []
        rw [List.filter_append, hkey']
        have h2 : keyMatches tid' y m
            ⟨s.nextInvoiceId, tid, y, m, b.total, "pending", now, none⟩
            = false := by
          simp [keyMatches]
          exact fun hh => hne hh.symm
        rw [List.filter_cons_of_neg (by simp [h2]), List.filter_nil,
          List.append_nil]
      · unfold itemsData at hitems' ⊢
        simp only []
        rw [List.filter_append]
        have hlt : inv'.id < s.nextInvoiceId := hwf.2.2.1 inv' hinv'_mem
        rw [storeItems_filter_other s.nextInvoiceId inv'.id b.items
          (by omega), List.append_nil]
        exact hitems'

/-- One upsert preserves the store's well-formedness. -/
lemma upsert_wf (y m now : Nat) (s : InvStore) (tid : Nat) (b : TenantBill)
    (hwf : InvWF s) : InvWF (upsertInvoice y m now s tid b) := by
  obtain ⟨hids, hkeys, hbound, hibound⟩ := hwf
  unfold upsertInvoice
  cases hfind : s.invoices.find? (keyMatches tid y m) with
  | some inv =>
      have hinv_mem : inv ∈ s.invoices := List.mem_of_find?_eq_some hfind
      refine ⟨?_, ?_, ?_, ?_⟩
      · simp only []
        rw [List.pairwise_map]
        exact hids.imp (fun {a c} h => by
          rw [id_update inv b now a, id_update inv b now c]
          exact h)
      · simp only []
        rw [List.pairwise_map]
        exact hkeys.imp (fun {a c} h => by
          rw [show ((if a.id == inv.id then
              { a with total_amount := b.total, status := "pending",
                       created_at := now, paid_at := none }
            else a).tenant_id, (if a.id == inv.id then
              { a with total_amount := b.total, status := "pending",
                       created_at := now, paid_at := none }
            else a).year, (if a.id == inv.id then
              { a with total_amount := b.total, status := "pending",
                       created_at := now, paid_at := none }
            else a).month) = (a.tenant_id, a.year, a.month)
            from key_update inv b now a]
          rw [show ((if c.id == inv.id then
              { c with total_amount := b.total, status := "pending",
                       created_at := now, paid_at := none }
            else c).tenant_id, (if c.id == inv.id then
              { c with total_amount := b.total, status := "pending",
                       created_at := now, paid_at := none }
            else c).year, (if c.id == inv.id then
              { c with total_amount := b.total, status := "pending",
                       created_at := now, paid_at := none }
            else c).month) = (c.tenant_id, c.year, c.month)
            from key_update inv b now c]
          exact h)
      · intro i hi
        simp only [] at hi
        obtain ⟨j, hj, hje⟩ := List.mem_map.mp hi
        rw [← hje, id_update inv b now j]
        exact hbound j hj
      · intro it hit
        simp only [] at hit
        rcases List.mem_append.mp hit with h | h
        · exact hibound it (List.mem_of_mem_filter h)
        · obtain ⟨li, hli, hle⟩ := List.mem_map.mp h
          rw [← hle]
          exact hbound inv hinv_mem
  | none =>
      refine ⟨?_, ?_, ?_, ?_⟩
      · simp only []
        rw [List.pairwise_append]
        refine ⟨hids, List.pairwise_singleton _ _, ?_⟩
        intro a ha c hc
        simp only [List.mem_singleton] at hc
        subst hc
        have := hbound a ha
        simp only []
        omega
      · simp only []
        rw [List.pairwise_append]
        refine ⟨hkeys, List.pairwise_singleton _ _, ?_⟩
        intro a ha c hc
        simp only [List.mem_singleton] at hc
        subst hc
        have hfalse : keyMatches tid y m a = false := by
          have h := List.find?_eq_none.mp hfind a ha
          simpa using h
        intro hkey_eq
        have h1 : a.tenant_id = tid := congrArg Prod.fst hkey_eq
        have h2 : a.year = y := congrArg (fun p => p.2.1) hkey_eq
        have h3 : a.month = m := congrArg (fun p => p.2.2) hkey_eq
        simp [keyMatches, h1, h2, h3] at hfalse
      · intro i hi
        simp only [] at hi
        rcases List.mem_append.mp hi with h | h
        · have := hbound i h
          simp only []
          omega
        · simp only [List.mem_singleton] at h
          subst h
          simp only []
          omega
      · intro it hit
        simp only [] at hit
        rcases List.mem_append.mp hit with h | h
        · have := hibound it h
          simp only []
          omega
        · obtain ⟨li, hli, hle⟩ := List.mem_map.mp h
          rw [← hle]
          simp only []
          omega

/-- Folding further upserts for other keys preserves a key's stored
invoice. -/
lemma fold_billed_frame (y m now : Nat) (entries : List (Nat × TenantBill)) :
    ∀ (s : InvStore) (tid' : Nat) (b' : TenantBill), InvWF s →
      (∀ e ∈ entries, e.1 ≠ tid') → billedCorrectly s tid' y m b' →
      billedCorrectly (entries.foldl
        (fun st e => upsertInvoice y m now st e.1 e.2) s) tid' y m b' := by
  induction entries with
  | nil =>
      intro s tid' b' _ _ h
      simpa using h
  | cons e es ih =>
      intro s tid' b' hwf hne hbc
      simp only [List.foldl_cons]
      exact ih (upsertInvoice y m now s e.1 e.2) tid' b'
        (upsert_wf y m now s e.1 e.2 hwf)
        (fun x hx => hne x (List.mem_cons_of_mem e hx))
        (upsert_frame y m now s e.1 tid' e.2 b' hwf
          (fun hh => (hne e (List.mem_cons_self e es)) hh.symm) hbc)

/-- The per-tenant loop of `create_invoices`: after the fold, the store is
well-formed and every processed entry is billed correctly. -/
lemma fold_wf_and_billed (y m now : Nat) (entries : List (Nat × TenantBill)) :
    ∀ (s : InvStore), InvWF s →
      entries.Pairwise (fun a c => a.1 ≠ c.1) →
      InvWF (entries.foldl (fun st e => upsertInvoice y m now st e.1 e.2) s)
      ∧ ∀ e ∈ entries,
          billedCorrectly (entries.foldl
            (fun st e => upsertInvoice y m now st e.1 e.2) s) e.1 y m e.2 := by
  induction entries with
  | nil =>
      intro s hwf _
      exact ⟨hwf, by simp⟩
  | cons e es ih =>
      intro s hwf hkd
      rw [List.pairwise_cons] at hkd
      have hwf1 := upsert_wf y m now s e.1 e.2 hwf
      have hbc1 := upsert_billedCorrectly y m now s e.1 e.2 hwf
      have ihres := ih (upsertInvoice y m now s e.1 e.2) hwf1 hkd.2
      simp only [List.foldl_cons]
      refine ⟨ihres.1, ?_⟩
      intro x hx
      rcases List.mem_cons.mp hx with h | h
      · subst h
        exact fold_billed_frame y m now es (upsertInvoice y m now s x.1 x.2)
          x.1 x.2 hwf1 (fun c hc => Ne.symm (hkd.1 c hc)) hbc1
      · exact ihres.2 x h

/-- `appendItem` never changes the key sequence of the dictionary. -/
lemma appendItem_keys (l : List (Nat × TenantBill)) (tid : Nat)
    (it : LineItem) :
    (appendItem l tid it).map Prod.fst = l.map Prod.fst := by
  unfold appendItem
  rw [List.map_map]
  apply List.map_congr_left
  intro e _
  simp only [Function.comp]
  split <;> rfl

/-- One record-loop iteration keeps the dictionary keys distinct. -/
lemma billStep_keys (first last : Date) (acc : List (Nat × TenantBill))
    (r : OccRecord)
    (h : (acc.map Prod.fst).Pairwise (fun a c => a ≠ c)) :
    (((billStep first last acc r)).map Prod.fst).Pairwise
      (fun a c => a ≠ c) := by
  unfold billStep
  rw [appendItem_keys]
  cases hp : acc.any (fun e => e.1 == r.tenant_id) with
  | true =>
      rw [ensureTenant_present _ _ _ hp]
      exact h
  | false =>
      rw [ensureTenant_absent _ _ _ hp, List.map_append,
        List.pairwise_append]
      refine ⟨h, List.pairwise_singleton _ _, ?_⟩
      intro a ha c hc
      simp only [List.map_cons, List.map_nil, List.mem_singleton] at hc
      subst hc
      obtain ⟨e, he, hae⟩ := List.mem_map.mp ha
      rw [List.any_eq_false] at hp
      have hee := hp e he
      rw [← hae]
      simpa using hee

/-- The billing dictionary's keys (tenant ids) are pairwise distinct. -/
lemma billing_keys_distinct (year month : Nat) (occs : List OccRecord) :
    (compute_billing_records year month occs).Pairwise
      (fun a c => a.1 ≠ c.1) := by
  have haux : ∀ (rs : List OccRecord) (acc : List (Nat × TenantBill)),
      (acc.map Prod.fst).Pairwise (fun a c => a ≠ c) →
      (((rs.foldl (billStep (firstDay year month) (lastDay year month))
        acc)).map Prod.fst).Pairwise (fun a c => a ≠ c) := by
    intro rs
    induction rs with
    | nil =>
        intro acc h
        simpa using h
    | cons r rs ih =>
        intro acc h
        exact ih _ (billStep_keys _ _ acc r h)
  have h := haux (occs.filter (sqlOverlap (firstDay year month)
    (lastDay year month))) [] (by simp)
  exact List.pairwise_map.mp h

/-- C5: with the occupancy data fixed, running `create_invoices` twice in a
row leaves, for every tenant entry of the billing result, exactly one
invoice row for the (tenant, year, month) key after each run, both times
with the draft's total, the draft's line items, status 'pending' and
`paid_at` cleared — regeneration replaces rather than adds. -/
theorem create_invoices_idempotent (year month now1 now2 : Nat)
    (occs : List OccRecord) (s0 : InvStore)
    (hm : validPeriod year month = true) (hwf : InvWF s0) :
    ∀ e ∈ compute_billing_records year month occs,
      billedCorrectly (create_invoices year month now1 occs s0)
        e.1 year month e.2
      ∧ billedCorrectly (create_invoices year month now2 occs
          (create_invoices year month now1 occs s0)) e.1 year month e.2 := by
  have hkd := billing_keys_distinct year month occs
  have h1 := fold_wf_and_billed year month now1
    (compute_billing_records year month occs) s0 hwf hkd
  have h2 := fold_wf_and_billed year month now2
    (compute_billing_records year month occs)
    ((compute_billing_records year month occs).foldl
      (fun st e => upsertInvoice year month now1 st e.1 e.2) s0) h1.1 hkd
  intro e he
  exact ⟨h1.2 e he, h2.2 e he⟩

/-- C5 witness: generating July-2024 invoices twice from an empty invoice
store over one three-day occupancy leaves tenant 5 billed correctly after
each run. -/
theorem create_invoices_idempotent_witness :
    billedCorrectly (create_invoices 2024 7 11
        [⟨"U2", 5, "T5", ⟨2024, 7, 1⟩, some ⟨2024, 7, 3⟩, 2⟩] ⟨[], [], 1⟩)
      5 2024 7 ⟨"T5", [⟨"U2", 3, 2, 6⟩], 6⟩
    ∧ billedCorrectly (create_invoices 2024 7 12
        [⟨"U2", 5, "T5", ⟨2024, 7, 1⟩, some ⟨2024, 7, 3⟩, 2⟩]
        (create_invoices 2024 7 11
          [⟨"U2", 5, "T5", ⟨2024, 7, 1⟩, some ⟨2024, 7, 3⟩, 2⟩]
          ⟨[], [], 1⟩))
      5 2024 7 ⟨"T5", [⟨"U2", 3, 2, 6⟩], 6⟩ := by
  have hrec : compute_billing_records 2024 7
      [⟨"U2", 5, "T5", ⟨2024, 7, 1⟩, some ⟨2024, 7, 3⟩, 2⟩]
      = [(5, ⟨"T5", [⟨"U2", 3, 2, 6⟩], 6⟩)] := by
    simp [compute_billing_records, billStep, appendItem, ensureTenant,
      recordItem, sqlOverlap, dateLe, effectiveEnd, dateMin, dateMax,
      dateSub, firstDay, lastDay, daysInMonth, isLeap, toOrdinal,
      daysBeforeYear, daysBeforeMonth]
    norm_num
  have hwf : InvWF ⟨[], [], 1⟩ :=
    ⟨List.Pairwise.nil, List.Pairwise.nil, by simp, by simp⟩
  exact create_invoices_idempotent 2024 7 11 12
    [⟨"U2", 5, "T5", ⟨2024, 7, 1⟩, some ⟨2024, 7, 3⟩, 2⟩] ⟨[], [], 1⟩
    (by decide) hwf (5, ⟨"T5", [⟨"U2", 3, 2, 6⟩], 6⟩)
    (by
      rw [hrec]
      exact List.mem_singleton.mpr rfl)

end WarehouseApp
